import Mathlib

/-!
Verification of the emoji registry and matching engine of `pineoncellar/ai-emoji`
(`src/emoji_manager/emoji_manager.py`, `src/common/config.py`) against its
natural-language specification.  The Python code is shallowly embedded: the
filesystem is a record of directory listings, the persisted JSON store is a list
of record dictionaries, Python exceptions are `Except PyErr`, `random.choice`
and the external captioning service are explicit parameters.
-/

namespace AiEmoji

/-- Python exceptions that the embedded code can raise. -/
inductive PyErr where
  | attributeError
  | keyError
  | valueError
  | zeroDivisionError
deriving DecidableEq, Repr

/-! ## Path helpers (`os.path` on the relative, slash-separated paths the code uses) -/

/-- `os.path.join(d, n)` for the directory/filename pairs used by the code. -/
def joinPath (d n : String) : String := d ++ "/" ++ n

/-- `os.path.basename` for relative paths without duplicated slashes:
the characters after the last slash. -/
def basename (p : String) : String := ⟨(p.data.reverse.takeWhile (· ≠ '/')).reverse⟩

/-- `os.path.dirname` for relative paths without duplicated slashes:
the characters before the last slash (empty when there is no slash). -/
def dirname (p : String) : String :=
  ⟨((p.data.reverse.dropWhile (· ≠ '/')).drop 1).reverse⟩

/-- `str.lower` restricted to the per-character lowering the filename checks need. -/
def strLower (s : String) : String := ⟨s.data.map Char.toLower⟩

/-- `str.endswith(suffix)`. -/
def strEndsWith (s suffix : String) : Bool := suffix.data.isSuffixOf s.data

/-- `f.lower().endswith((".jpg", ".jpeg", ".png", ".gif"))`
(emoji_manager.py line 403). -/
def hasImageExt (f : String) : Bool :=
  let l := strLower f
  strEndsWith l ".jpg" || strEndsWith l ".jpeg" || strEndsWith l ".png" ||
    strEndsWith l ".gif"

/-- `EMOJI_APPROVED_DIR` (emoji_manager.py line 22). -/
def EMOJI_APPROVED_DIR : String := "data/emoji_approved"

/-- `EMOJI_REGISTED_DIR` (emoji_manager.py line 23). -/
def EMOJI_REGISTED_DIR : String := "data/emoji_registed"

/-- `MAX_EMOJI_FOR_PROMPT` (emoji_manager.py line 25). -/
def MAX_EMOJI_FOR_PROMPT : Nat := 20

/-! ## Configuration (`src/common/config.py`) -/

/-- `EmojiConfig` from src/common/config.py.  Its declared fields are exactly
`check_interval`, `max_reg_num`, `do_replace`, `content_filtration` and
`filtration_prompt`; there is no `similarity_limit` field. -/
structure EmojiConfig where
  check_interval : ℚ := 10
  max_reg_num : Nat := 100
  do_replace : Bool := false
  content_filtration : Bool := true
  filtration_prompt : String := ""
deriving DecidableEq, Repr

/-- The attribute access `global_config.emoji.similarity_limit` performed at
emoji_manager.py line 285.  `EmojiConfig` (a pydantic model) declares no field
of that name, so the access raises `AttributeError` for every configuration
value. -/
def similarityLimitAttr (_cfg : EmojiConfig) : Except PyErr ℚ :=
  .error .attributeError

/-! ## The record model (`MaiEmoji`) and the persisted dictionaries -/

/-- The fields of a `MaiEmoji` object (emoji_manager.py lines 52-68).
`embedding` is initialised to `[]` by the constructor and never serialized. -/
structure MaiEmoji where
  full_path : String
  path : String
  filename : String
  embedding : List ℚ
  hash : String
  description : String
  emotion : List String
  usage_count : Int
  last_used_time : ℚ
  register_time : ℚ
  is_deleted : Bool
  format : String
deriving DecidableEq, Repr

/-- `MaiEmoji.__init__(full_path)`: raises `ValueError` on an empty path,
otherwise derives `path`/`filename` from `full_path` and zero-initialises the
remaining fields; `now` stands for `time.time()`. -/
def MaiEmoji.make (now : ℚ) (full_path : String) : Except PyErr MaiEmoji :=
  if full_path = "" then .error .valueError
  else .ok
    { full_path := full_path
      path := dirname full_path
      filename := basename full_path
      embedding := []
      hash := ""
      description := ""
      emotion := []
      usage_count := 0
      last_used_time := now
      register_time := now
      is_deleted := false
      format := "" }

/-- One entry of the persisted JSON store: a Python dict with the keys written
by `MaiEmoji.to_dict`.  `none` models an absent key. -/
structure RecordDict where
  hash : Option String := none
  full_path : Option String := none
  filename : Option String := none
  description : Option String := none
  emotion : Option (List String) := none
  usage_count : Option Int := none
  last_used_time : Option ℚ := none
  register_time : Option ℚ := none
  is_deleted : Option Bool := none
  format : Option String := none
deriving DecidableEq, Repr

/-- `MaiEmoji.to_dict` (emoji_manager.py lines 70-82). -/
def MaiEmoji.toDict (e : MaiEmoji) : RecordDict :=
  { hash := some e.hash
    full_path := some e.full_path
    filename := some e.filename
    description := some e.description
    emotion := some e.emotion
    usage_count := some e.usage_count
    last_used_time := some e.last_used_time
    register_time := some e.register_time
    is_deleted := some e.is_deleted
    format := some e.format }

/-- `MaiEmoji.from_dict` (emoji_manager.py lines 84-95): `d["full_path"]`
raises `KeyError` when the key is missing, the constructor raises `ValueError`
when it is empty; every other field falls back to the `d.get` default.  Both
`time.time()` calls of the constructor and of the `get` defaults are modelled
as the single instant `now`. -/
def MaiEmoji.fromDict (now : ℚ) (d : RecordDict) : Except PyErr MaiEmoji :=
  match d.full_path with
  | none => .error .keyError
  | some fp =>
    match MaiEmoji.make now fp with
    | .error err => .error err
    | .ok obj => .ok
      { obj with
        hash := d.hash.getD ""
        description := d.description.getD ""
        emotion := d.emotion.getD []
        usage_count := d.usage_count.getD 0
        last_used_time := d.last_used_time.getD now
        register_time := d.register_time.getD now
        is_deleted := d.is_deleted.getD false
        format := d.format.getD "" }

/-! ## The record store (`_load_emoji_json` and friends) -/

/-- The raw content of `emoji_data.json`: `none` models a file whose JSON text
does not parse (or a missing file), `some ds` a parsed list of record dicts. -/
abbrev RawStore := Option (List RecordDict)

/-- `_load_emoji_json` (emoji_manager.py lines 37-44): parse failure is caught
and yields the empty list. -/
def loadEmojiJson (raw : RawStore) : List RecordDict := raw.getD []

/-- Sequencing of `MaiEmoji.from_dict` over a list, propagating the first
raised exception, as the list comprehension of `_load_all_emoji_objects` does. -/
def fromDictList (now : ℚ) : List RecordDict → Except PyErr (List MaiEmoji)
  | [] => .ok []
  | d :: ds =>
    match MaiEmoji.fromDict now d with
    | .error err => .error err
    | .ok e =>
      match fromDictList now ds with
      | .error err => .error err
      | .ok es => .ok (e :: es)

/-- `_load_all_emoji_objects` (emoji_manager.py lines 180-182): drop the dicts
whose `is_deleted` entry is truthy, then convert each remaining dict.  The
conversion can raise (`from_dict` is not guarded). -/
def loadAllEmojiObjects (now : ℚ) (raw : RawStore) : Except PyErr (List MaiEmoji) :=
  fromDictList now ((loadEmojiJson raw).filter (fun d => !(d.is_deleted.getD false)))

/-- `_save_all_emoji_objects` (emoji_manager.py lines 185-186). -/
def saveAllEmojiObjects (objs : List MaiEmoji) : List RecordDict :=
  objs.map MaiEmoji.toDict

/-! ## Levenshtein distance and similarity (`EmojiManager._levenshtein_distance`,
`get_emoji_for_text` lines 288-295) -/

/-- The inner loop of `_levenshtein_distance` (lines 321-325): given the
character `c1`, the remaining characters of `s2` paired against the previous
row, and the last value written to the current row, produce the rest of the
current row.  `prev` always has one more entry than the remaining characters. -/
def levRowAux (c1 : Char) : List Char → List Nat → Nat → List Nat
  | [], _, _ => []
  | _ :: _, [], _ => []
  | _ :: _, [_], _ => []
  | c2 :: cs, pj :: pj1 :: prest, last =>
    let ins := pj1 + 1
    let del := last + 1
    let sub := pj + (if c1 = c2 then 0 else 1)
    let m := min ins (min del sub)
    m :: levRowAux c1 cs (pj1 :: prest) m

/-- The outer loop of `_levenshtein_distance` (lines 319-326): fold the rows
over the characters of `s1`, starting each row with `i + 1`. -/
def levLoop (s2 : List Char) : List Char → Nat → List Nat → List Nat
  | [], _, prev => prev
  | c1 :: rest, i, prev =>
    levLoop s2 rest (i + 1) ((i + 1) :: levRowAux c1 s2 prev (i + 1))

/-- `_levenshtein_distance` after the argument swap: assumes
`s1.length ≥ s2.length` (lines 316-327). -/
def levCore (s1 s2 : List Char) : Nat :=
  if s2.length = 0 then s1.length
  else (levLoop s2 s1 0 (List.range (s2.length + 1))).getLast?.getD 0

/-- `EmojiManager._levenshtein_distance` (emoji_manager.py lines 313-327). -/
def levenshteinDistance (s1 s2 : String) : Nat :=
  if s1.length < s2.length then levCore s2.data s1.data else levCore s1.data s2.data

/-- Python `/` on numbers, which raises `ZeroDivisionError` on a zero
denominator. -/
def pyDiv (a b : ℚ) : Except PyErr ℚ :=
  if b = 0 then .error .zeroDivisionError else .ok (a / b)

/-- The per-tag similarity expression of `get_emoji_for_text` (lines 289-291)
with Python division made explicit:
`1 - (distance / max_len if max_len > 0 else 0)`. -/
def similarityChecked (q t : String) : Except PyErr ℚ :=
  let distance := levenshteinDistance q t
  let maxLen := max q.length t.length
  match (if maxLen > 0 then pyDiv (distance : ℚ) (maxLen : ℚ) else .ok 0) with
  | .error err => .error err
  | .ok frac => .ok (1 - frac)

/-- The same similarity expression as a total function (the division guard of
line 291 keeps the denominator positive wherever the division runs). -/
def similarity (q t : String) : ℚ :=
  let distance := levenshteinDistance q t
  let maxLen := max q.length t.length
  1 - (if maxLen > 0 then (distance : ℚ) / (maxLen : ℚ) else 0)

/-! ## The matcher (`get_emoji_for_text`, emoji_manager.py lines 271-312) -/

/-- A `(record, similarity, matched tag)` triple of the matcher's candidate
list. -/
abbrev EmojiTriple := MaiEmoji × ℚ × String

/-- The inner tag loop of `get_emoji_for_text` (lines 288-295): whenever a
tag's similarity strictly exceeds the limit, the running `max_similarity` and
`best_matching_emotion` variables are overwritten with that tag's own
similarity and tag, and the triple is appended; so each qualifying tag
contributes one triple carrying its own similarity. -/
def tagLoop (q : String) (lim : ℚ) (e : MaiEmoji) : List String → List EmojiTriple
  | [] => []
  | t :: ts =>
    if lim < similarity q t then (e, similarity q t, t) :: tagLoop q lim e ts
    else tagLoop q lim e ts

/-- The record loop of `get_emoji_for_text` (lines 279-295), with the
`similarity_limit` attribute read of line 285 made explicit: it is evaluated
once for every non-deleted record with a non-empty tag list, and a raised
exception aborts the loop. -/
def emojiSimilaritiesE (limitRead : Except PyErr ℚ) (q : String) :
    List MaiEmoji → Except PyErr (List EmojiTriple)
  | [] => .ok []
  | e :: rest =>
    if e.is_deleted then emojiSimilaritiesE limitRead q rest
    else if e.emotion = [] then emojiSimilaritiesE limitRead q rest
    else
      match limitRead with
      | .error err => .error err
      | .ok lim =>
        match emojiSimilaritiesE limitRead q rest with
        | .error err => .error err
        | .ok more => .ok (tagLoop q lim e e.emotion ++ more)

/-- The same record loop with the similarity limit supplied as a value (the
algorithm as it would run if the configuration attribute existed). -/
def emojiSimilarities (q : String) (lim : ℚ) : List MaiEmoji → List EmojiTriple
  | [] => []
  | e :: rest =>
    if e.is_deleted then emojiSimilarities q lim rest
    else if e.emotion = [] then emojiSimilarities q lim rest
    else tagLoop q lim e e.emotion ++ emojiSimilarities q lim rest

/-- `emoji_similarities.sort(key=lambda x: x[1], reverse=True)` (line 296):
a stable sort placing higher similarities first, modelled by insertion sort
with the reflexive descending comparison (Python's sort is stable, and a
stable sort is determined by its comparison). -/
def sortDesc (l : List EmojiTriple) : List EmojiTriple :=
  l.insertionSort (fun a b => b.2.1 ≤ a.2.1)

/-- `emoji_similarities[:10] if len(emoji_similarities) > 10 else
emoji_similarities` (line 297). -/
def topSlice (l : List EmojiTriple) : List EmojiTriple := l.take 10

/-- `random.choice(seq)` with the random draw supplied as the index `pick`:
raises on an empty sequence (modelled as `none`), otherwise returns an entry,
every entry being reachable for some `pick`. -/
def randomChoice (pick : Nat) : List α → Option α
  | [] => none
  | x :: xs => some ((x :: xs).getD (pick % (xs.length + 1)) x)

/-! ## Filesystem and manager state -/

/-- The directories the manager touches.  Each directory is `none` when it
does not exist, otherwise the list of names of the plain files it contains.
`other` holds full paths of files outside these directories. -/
structure FS where
  approved : Option (List String) := some []
  registed : Option (List String) := some []
  temp_emoji : Option (List String) := some []
  temp_image : Option (List String) := some []
  other : List String := []
deriving DecidableEq, Repr

/-- Whether the directory listing `o` rooted at `dir` contains the file with
full path `p`. -/
def dirHas (dir : String) (o : Option (List String)) (p : String) : Bool :=
  (o.getD []).any (fun n => joinPath dir n = p)

/-- Delete the file with full path `p` from the directory listing `o` rooted
at `dir`. -/
def dirRemove (dir : String) (o : Option (List String)) (p : String) :
    Option (List String) :=
  o.map (·.filter (fun n => joinPath dir n ≠ p))

/-- `os.path.exists(p)` for a full path `p`. -/
def FS.pathExists (fs : FS) (p : String) : Bool :=
  dirHas EMOJI_APPROVED_DIR fs.approved p ||
  dirHas EMOJI_REGISTED_DIR fs.registed p ||
  dirHas "data/emoji" fs.temp_emoji p ||
  dirHas "data/image" fs.temp_image p ||
  fs.other.contains p

/-- `os.remove(p)` for a full path `p` (no effect when the file is absent;
callers guard with `os.path.exists` where the code does). -/
def FS.removePath (fs : FS) (p : String) : FS :=
  { approved := dirRemove EMOJI_APPROVED_DIR fs.approved p
    registed := dirRemove EMOJI_REGISTED_DIR fs.registed p
    temp_emoji := dirRemove "data/emoji" fs.temp_emoji p
    temp_image := dirRemove "data/image" fs.temp_image p
    other := fs.other.filter (· ≠ p) }

/-- The mutable state of the `EmojiManager` singleton relevant to the claims:
the in-memory record list and counter, the configured maximum copied by
`__init__`, the parsed content of `emoji_data.json`, and the filesystem.  The
manager is modelled after `initialize` has run (`_ensure_db` is a no-op
then). -/
structure MState where
  emoji_objects : List MaiEmoji
  emoji_num : Int
  emoji_num_max : Int
  store : List RecordDict
  fs : FS
deriving DecidableEq, Repr

/-- The outcomes of the external calls made while registering a file:
`read p` models reading + decoding the image at `p` (`image_path_to_base64`,
md5, PIL format detection; `none` on any failure), `caption p` models
`analyze_emotion_from_image` (returning `("", [])` when that call fails, as
`build_emoji_description` does). -/
structure ImgOracle where
  read : String → Option (String × String)
  caption : String → String × List String

/-- `EmojiManager.get_emoji_from_manager` (lines 429-433): the first
non-deleted record with the given hash. -/
def getEmojiFromManager (h : String) : List MaiEmoji → Option MaiEmoji
  | [] => none
  | e :: rest =>
    if !e.is_deleted && e.hash = h then some e else getEmojiFromManager h rest

/-- The body of `EmojiManager.record_usage` (lines 259-269): bump the first
record matching the hash and save; `none` when no record matches. -/
def recordUsageList (now : ℚ) (h : String) : List MaiEmoji → Option (List MaiEmoji)
  | [] => none
  | e :: rest =>
    if e.hash = h then
      some ({ e with usage_count := e.usage_count + 1, last_used_time := now } :: rest)
    else (recordUsageList now h rest).map (e :: ·)

/-- `EmojiManager.record_usage`: on a hit the list is updated and persisted,
on a miss (or exception) only a log line is emitted. -/
def recordUsage (now : ℚ) (st : MState) (h : String) : MState :=
  match recordUsageList now h st.emoji_objects with
  | some objs => { st with emoji_objects := objs, store := saveAllEmojiObjects objs }
  | none => st

/-- `MaiEmoji.register_to_json` (lines 125-150): move the file from its
staging path into `EMOJI_REGISTED_DIR` (replacing any existing destination),
update `full_path`/`path`, and append the record's dict to the persisted
store.  Returns the possibly-updated record and `false` when the source is
missing or the destination directory does not exist (the `os.rename` failure
is caught and registration aborts with the store unchanged). -/
def registerToJson (st : MState) (e : MaiEmoji) : Bool × MState × MaiEmoji :=
  let source := e.full_path
  let dest := joinPath EMOJI_REGISTED_DIR e.filename
  if !st.fs.pathExists source then (false, st, e)
  else
    match st.fs.registed with
    | none => (false, st, e)
    | some _ =>
      let fs1 := if st.fs.pathExists dest then st.fs.removePath dest else st.fs
      let fs2 := fs1.removePath source
      let fs3 := { fs2 with registed := some ((fs2.registed.getD []) ++ [e.filename]) }
      let e2 := { e with full_path := dest, path := EMOJI_REGISTED_DIR }
      (true, { st with fs := fs3, store := st.store ++ [e2.toDict] }, e2)

/-- The tail of `register_emoji_by_filename` (lines 549-558): move the file
and persist via `register_to_json`, then append the record in memory, bump the
counter and save the full list; a failed move aborts with `False`. -/
def registerFinish (st : MState) (e2 : MaiEmoji) : Bool × MState :=
  match registerToJson st e2 with
  | (false, st1, _) => (false, st1)
  | (true, st1, e3) =>
    let objs := st1.emoji_objects ++ [e3]
    (true, { st1 with
      emoji_objects := objs
      emoji_num := st1.emoji_num + 1
      store := saveAllEmojiObjects objs })

/-- `EmojiManager.register_emoji_by_filename` (lines 530-562): check the
staged file exists, construct the record, hash/decode it (`none` outcome or a
tombstoned record aborts), reject a hash already active, caption it, move the
file and persist, and finally append it in memory, bump the counter and save
the full list.  All failure paths return with the state unchanged. -/
def registerEmojiByFilename (oracle : ImgOracle) (now : ℚ) (st : MState)
    (filename : String) : Bool × MState :=
  let fp := joinPath EMOJI_APPROVED_DIR filename
  if !st.fs.pathExists fp then (false, st)
  else
    match MaiEmoji.make now fp with
    | .error _ => (false, st)
    | .ok e0 =>
      if !st.fs.pathExists fp then (false, st)
      else
        match oracle.read fp with
        | none => (false, st)
        | some (h, fmt) =>
          let e1 := { e0 with hash := h, format := fmt }
          if (getEmojiFromManager h st.emoji_objects).isSome then (false, st)
          else
            let de := oracle.caption fp
            let e2 := { e1 with description := de.1, emotion := de.2 }
            registerFinish st e2

/-- `MaiEmoji.delete` (lines 152-168) followed by the bookkeeping of
`EmojiManager.delete_emoji` (lines 434-454), assuming the underlying delete
succeeds: remove the file best-effort, drop the hash from the persisted store,
drop every record with that hash from memory, decrement the counter, save. -/
def deleteEmojiOp (st : MState) (h : String) : Bool × MState :=
  match getEmojiFromManager h st.emoji_objects with
  | none => (false, st)
  | some e =>
    let fs1 := if st.fs.pathExists e.full_path then st.fs.removePath e.full_path else st.fs
    let store1 := st.store.filter (fun d => d.hash ≠ some e.hash)
    let objs := st.emoji_objects.filter (fun x => x.hash ≠ h)
    let st1 := { st with fs := fs1, store := store1 }
    (true, { st1 with
      emoji_objects := objs
      emoji_num := st1.emoji_num - 1
      store := saveAllEmojiObjects objs })

/-- The record pass of `EmojiManager.check_emoji_file_integrity`
(lines 336-358): walk the records, keep the intact ones, and for each dropped
record count the decrement applied to `emoji_num` (tombstoned records are
dropped without a decrement) while applying the file/store effects of
`MaiEmoji.delete` for the missing-file and empty-description cases.  Returns
(kept records, total decrement, filesystem, store). -/
def integrityScan (fs : FS) (store : List RecordDict) :
    List MaiEmoji → List MaiEmoji × Int × FS × List RecordDict
  | [] => ([], 0, fs, store)
  | e :: rest =>
    if e.is_deleted then integrityScan fs store rest
    else if !fs.pathExists e.full_path then
      let store1 := store.filter (fun d => d.hash ≠ some e.hash)
      let (kept, dec, fs2, store2) := integrityScan fs store1 rest
      (kept, dec + 1, fs2, store2)
    else if e.description = "" then
      let fs1 := fs.removePath e.full_path
      let store1 := store.filter (fun d => d.hash ≠ some e.hash)
      let (kept, dec, fs2, store2) := integrityScan fs1 store1 rest
      (kept, dec + 1, fs2, store2)
    else
      let (kept, dec, fs2, store2) := integrityScan fs store rest
      (e :: kept, dec, fs2, store2)

/-- `clean_unused_emojis(EMOJI_REGISTED_DIR, emoji_objects)` (lines 203-226):
when the directory exists, delete every file in it whose full path is not the
`full_path` of a non-deleted record. -/
def cleanUnusedEmojis (fs : FS) (objs : List MaiEmoji) : FS :=
  match fs.registed with
  | none => fs
  | some names =>
    let tracked := (objs.filter (fun e => !e.is_deleted)).map (·.full_path)
    { fs with
      registed := some (names.filter (fun n => tracked.contains (joinPath EMOJI_REGISTED_DIR n))) }

/-- `EmojiManager.check_emoji_file_integrity` (lines 328-370): skip entirely
when the in-memory list is empty; otherwise reset `emoji_num` to the list
length, run the record pass, save the reduced list when anything was removed,
and sweep the registered directory. -/
def checkEmojiFileIntegrity (st : MState) : MState :=
  if st.emoji_objects = [] then st
  else
    let totalCount : Int := st.emoji_objects.length
    let (kept, dec, fs1, store1) := integrityScan st.fs st.store st.emoji_objects
    let removedAny := kept.length ≠ st.emoji_objects.length
    let store2 := if removedAny then saveAllEmojiObjects kept else store1
    let fs2 := cleanUnusedEmojis fs1 kept
    { st with
      emoji_objects := kept
      emoji_num := totalCount - dec
      store := store2
      fs := fs2 }

/-- `clear_temp_emoji` (lines 189-200): for `data/emoji` and `data/image`,
when the directory exists and holds more than 100 entries, delete its files. -/
def clearTempEmoji (fs : FS) : FS :=
  let sweep := fun (o : Option (List String)) =>
    match o with
    | none => none
    | some files => if files.length > 100 then some [] else some files
  { fs with temp_emoji := sweep fs.temp_emoji, temp_image := sweep fs.temp_image }

/-- The per-file loop of `start_periodic_check_register` (lines 405-413):
register each candidate; a file whose registration fails is deleted from the
staging directory. -/
def processFiles (oracle : ImgOracle) (now : ℚ) (st : MState) :
    List String → MState
  | [] => st
  | f :: rest =>
    let (succ, st1) := registerEmojiByFilename oracle now st f
    if succ then processFiles oracle now st1 rest
    else
      processFiles oracle now
        { st1 with fs := st1.fs.removePath (joinPath EMOJI_APPROVED_DIR f) } rest

/-- The discovery/registration part of the scan cycle (lines 384-415):
staging-directory creation when missing, then — only when
`(emoji_num > emoji_num_max and do_replace) or (emoji_num < emoji_num_max)` —
the per-file registration loop over the image files of the staging
directory. -/
def scanRegister (oracle : ImgOracle) (cfg : EmojiConfig) (now : ℚ) (st2 : MState) : MState :=
  match st2.fs.approved with
  | none => { st2 with fs := { st2.fs with approved := some [] } }
  | some files =>
    if files = [] then st2
    else if (st2.emoji_num > st2.emoji_num_max && cfg.do_replace) ||
        (st2.emoji_num < st2.emoji_num_max) then
      processFiles oracle now st2 (files.filter hasImageExt)
    else st2

/-- One iteration of the `while True` body of
`EmojiManager.start_periodic_check_register` (lines 379-416): integrity check,
temp cleanup, then discovery and registration. -/
def scanCycle (oracle : ImgOracle) (cfg : EmojiConfig) (now : ℚ) (st : MState) : MState :=
  let st1 := checkEmojiFileIntegrity st
  scanRegister oracle cfg now { st1 with fs := clearTempEmoji st1.fs }

/-- `EmojiManager.get_emoji_for_text` (lines 271-312): build the candidate
triples (reading `global_config.emoji.similarity_limit` per record), sort by
similarity descending, slice the top 10, pick one at random, record its usage
and return its path and bracketed description.  Any raised exception is caught
and yields `None`.  `pick` supplies the random draw. -/
def getEmojiForText (cfg : EmojiConfig) (now : ℚ) (pick : Nat) (st : MState)
    (q : String) : Option (String × String) × MState :=
  if st.emoji_objects = [] then (none, st)
  else
    match emojiSimilaritiesE (similarityLimitAttr cfg) q st.emoji_objects with
    | .error _ => (none, st)
    | .ok cands =>
      match randomChoice pick (topSlice (sortDesc cands)) with
      | none => (none, st)
      | some sel =>
        let st1 := recordUsage now st sel.1.hash
        (some (sel.1.full_path, "[ " ++ sel.1.description ++ " ]"), st1)

/-- `EmojiManager.initialize` (lines 249-253) given the raw persisted file:
on success the loaded records and their count replace the in-memory state; a
raised exception propagates with the fields unassigned. -/
def initializeOp (now : ℚ) (raw : RawStore) (st : MState) : MState :=
  match loadAllEmojiObjects now raw with
  | .ok l => { st with emoji_objects := l, emoji_num := (l.length : Int) }
  | .error _ => st

/-- `EmojiManager.get_all_emoji_from_json` (lines 417-428): reload from the
persisted store; a raised exception is caught and resets the state to empty. -/
def getAllEmojiFromJson (now : ℚ) (st : MState) : MState :=
  match loadAllEmojiObjects now (some st.store) with
  | .ok l => { st with emoji_objects := l, emoji_num := (l.length : Int) }
  | .error _ => { st with emoji_objects := [], emoji_num := 0 }

/-- The Registry operations of the claims, as state transformers. -/
inductive RegOp where
  | recUsage (now : ℚ) (h : String)
  | regFile (now : ℚ) (filename : String)
  | delEmoji (h : String)
  | integrity
  | getAll (now : ℚ)
  | initStore (now : ℚ) (raw : RawStore)

/-- Apply one Registry operation to the manager state. -/
def applyOp (oracle : ImgOracle) : RegOp → MState → MState
  | .recUsage now h, st => recordUsage now st h
  | .regFile now f, st => (registerEmojiByFilename oracle now st f).2
  | .delEmoji h, st => (deleteEmojiOp st h).2
  | .integrity, st => checkEmojiFileIntegrity st
  | .getAll now, st => getAllEmojiFromJson now st
  | .initStore now raw, st => initializeOp now raw st

/-- The invariant of claim C10: no in-memory record is tombstoned and the
counter matches the list length. -/
def Inv (st : MState) : Prop :=
  (∀ e ∈ st.emoji_objects, e.is_deleted = false) ∧
    st.emoji_num = (st.emoji_objects.length : Int)

instance (st : MState) : Decidable (Inv st) := by
  unfold Inv
  infer_instance

/-- The precondition under which each Registry operation is claimed to
establish or preserve `Inv`: the loading operations establish it outright
(initialize requires the load not to raise), the mutating operations require
it, and `delete_emoji` additionally requires the active hashes to be pairwise
distinct. -/
def opPre (op : RegOp) (st : MState) : Prop :=
  match op with
  | .initStore now raw => ∃ l, loadAllEmojiObjects now raw = .ok l
  | .getAll _ => True
  | .delEmoji _ => Inv st ∧ (st.emoji_objects.map (·.hash)).Nodup
  | _ => Inv st

/-- The removal condition applied to one record by the integrity pass:
tombstoned, backing file missing, or empty description. -/
def removePredB (fs : FS) (e : MaiEmoji) : Bool :=
  e.is_deleted || !fs.pathExists e.full_path || e.description == ""

/-- The full paths whose files the integrity pass itself deletes: those of
non-deleted records whose file exists but whose description is empty. -/
def descRemovedPaths (fs : FS) (objs : List MaiEmoji) : List String :=
  (objs.filter (fun e => !e.is_deleted && fs.pathExists e.full_path && e.description == "")).map
    (·.full_path)

/-- A record as the `MaiEmoji` constructor and the mutations of the code can
produce it: non-empty `full_path`, with `path`/`filename` the derived
directory and base name and `embedding` never populated. -/
def WellFormed (e : MaiEmoji) : Prop :=
  e.full_path ≠ "" ∧ e.path = dirname e.full_path ∧
    e.filename = basename e.full_path ∧ e.embedding = []

instance (e : MaiEmoji) : Decidable (WellFormed e) := by
  unfold WellFormed
  infer_instance

/-! ## Concrete states used by witnesses and counterexamples -/

/-- A registered, active record with two tags. -/
def sampleEmoji : MaiEmoji :=
  { full_path := "data/emoji_registed/a.png"
    path := "data/emoji_registed"
    filename := "a.png"
    embedding := []
    hash := "h1"
    description := "a cat"
    emotion := ["aa", "ab"]
    usage_count := 0
    last_used_time := 0
    register_time := 0
    is_deleted := false
    format := "png" }

/-- A second active record, distinct file and hash. -/
def sampleEmojiB : MaiEmoji :=
  { sampleEmoji with
    full_path := "data/emoji_registed/b.png"
    filename := "b.png"
    hash := "h0"
    description := "a dog"
    emotion := ["bb"] }

/-- A record sharing `sampleEmoji`'s hash but backed by a different file. -/
def sampleEmojiDup : MaiEmoji :=
  { sampleEmoji with
    full_path := "data/emoji_registed/c.png"
    filename := "c.png"
    description := "a copy" }

/-- A tombstoned record. -/
def sampleEmojiDeleted : MaiEmoji :=
  { sampleEmoji with
    full_path := "data/emoji_registed/d.png"
    filename := "d.png"
    hash := "h9"
    description := "gone"
    is_deleted := true }

/-- A record whose backing file is absent from the filesystem below. -/
def sampleEmojiMissing : MaiEmoji :=
  { sampleEmoji with
    full_path := "data/emoji_registed/m.png"
    filename := "m.png"
    hash := "h7"
    description := "missing file" }

/-- An oracle: `new.png` decodes to hash `h2`, a staged duplicate `dup.png`
decodes to `sampleEmoji`'s hash `h1`. -/
def sampleOracle : ImgOracle :=
  { read := fun p =>
      if p = "data/emoji_approved/new.png" then some ("h2", "png")
      else if p = "data/emoji_approved/dup.png" then some ("h1", "png")
      else none
    caption := fun _ => ("a new emoji", ["sad"]) }

/-- A configuration with replacement enabled and a maximum of one record. -/
def cfgReplaceMax1 : EmojiConfig :=
  { check_interval := 10, max_reg_num := 1, do_replace := true,
    content_filtration := true, filtration_prompt := "x" }

/-- A configuration with replacement disabled. -/
def cfgNoReplace : EmojiConfig :=
  { check_interval := 10, max_reg_num := 1, do_replace := false,
    content_filtration := true, filtration_prompt := "x" }

/-- Manager at capacity (1/1) with one valid staged file. -/
def stAtMax : MState :=
  { emoji_objects := [sampleEmoji]
    emoji_num := 1
    emoji_num_max := 1
    store := [sampleEmoji.toDict]
    fs := { approved := some ["new.png"], registed := some ["a.png"],
            temp_emoji := some [], temp_image := some [], other := [] } }

/-- Manager over capacity (2 records, maximum 1) with one valid staged file. -/
def stOverMax : MState :=
  { emoji_objects := [sampleEmoji, sampleEmojiB]
    emoji_num := 2
    emoji_num_max := 1
    store := [sampleEmoji.toDict, sampleEmojiB.toDict]
    fs := { approved := some ["new.png"], registed := some ["a.png", "b.png"],
            temp_emoji := some [], temp_image := some [], other := [] } }

/-- The record `register_emoji_by_filename` produces for `new.png` under
`sampleOracle` at time 0. -/
def newRegistered : MaiEmoji :=
  { full_path := "data/emoji_registed/new.png"
    path := "data/emoji_registed"
    filename := "new.png"
    embedding := []
    hash := "h2"
    description := "a new emoji"
    emotion := ["sad"]
    usage_count := 0
    last_used_time := 0
    register_time := 0
    is_deleted := false
    format := "png" }

/-- Two active records sharing the hash `h1`: satisfies C10's invariant but
breaks it under `delete_emoji`. -/
def stDupHash : MState :=
  { emoji_objects := [sampleEmoji, sampleEmojiDup]
    emoji_num := 2
    emoji_num_max := 100
    store := [sampleEmoji.toDict, sampleEmojiDup.toDict]
    fs := { approved := some [], registed := some ["a.png", "c.png"],
            temp_emoji := some [], temp_image := some [], other := [] } }

/-- A manager with no records but one orphaned file in the registered
directory. -/
def stEmptyOrphan : MState :=
  { emoji_objects := []
    emoji_num := 0
    emoji_num_max := 100
    store := []
    fs := { approved := some [], registed := some ["orphan.png"],
            temp_emoji := some [], temp_image := some [], other := [] } }

/-- A manager with one intact record, one record whose file is missing, and
one orphan file. -/
def stIntegrity : MState :=
  { emoji_objects := [sampleEmoji, sampleEmojiMissing]
    emoji_num := 2
    emoji_num_max := 100
    store := [sampleEmoji.toDict, sampleEmojiMissing.toDict]
    fs := { approved := some [], registed := some ["a.png", "orphan.png"],
            temp_emoji := some [], temp_image := some [], other := [] } }

/-- A store entry with no `full_path` key and `is_deleted` false. -/
def badDict : RecordDict := { full_path := none, is_deleted := some false }

/-- Manager holding `sampleEmoji` with a staged file whose content duplicates
`sampleEmoji`'s hash. -/
def stDupStaged : MState :=
  { emoji_objects := [sampleEmoji]
    emoji_num := 1
    emoji_num_max := 100
    store := [sampleEmoji.toDict]
    fs := { approved := some ["dup.png"], registed := some ["a.png"],
            temp_emoji := some [], temp_image := some [], other := [] } }

/-! ## Lemmas -/

/-- When the similarity-limit read raises, the record loop either finds no
record to score (no candidates) or propagates the exception. -/
theorem emojiSimilaritiesE_error (err : PyErr) (q : String) :
    ∀ l : List MaiEmoji, emojiSimilaritiesE (.error err) q l = .ok [] ∨
      emojiSimilaritiesE (.error err) q l = .error err := by
  intro l
  induction l with
  | nil => exact Or.inl rfl
  | cons e rest ih =>
    by_cases hd : e.is_deleted = true
    · simpa [emojiSimilaritiesE, hd] using ih
    · by_cases hm : e.emotion = []
      · simpa [emojiSimilaritiesE, hd, hm] using ih
      · right
        simp [emojiSimilaritiesE, hd, hm]

/-- The checked similarity never raises: the division guard of line 291 keeps
the denominator away from zero. -/
theorem similarityChecked_eq_ok (q t : String) :
    similarityChecked q t = .ok (similarity q t) := by
  unfold similarityChecked similarity pyDiv
  by_cases h : max q.length t.length > 0
  · have hz : ¬((max q.length t.length : ℚ) = 0) := by
      exact_mod_cast Nat.pos_iff_ne_zero.mp h
    simp [h, hz]
  · simp [h]

/-- On two empty strings the guard takes its else-branch and the similarity
computes to `1 - 0 = 1`. -/
theorem similarity_empty_empty : similarity "" "" = 1 := by
  unfold similarity
  norm_num

/-- Converting a list of dicts succeeds when each has a non-empty
`full_path` entry. -/
theorem fromDictList_ok_of_good (now : ℚ) :
    ∀ ds : List RecordDict, (∀ d ∈ ds, d.full_path.getD "" ≠ "") →
      ∃ l, fromDictList now ds = .ok l := by
  intro ds
  induction ds with
  | nil => exact fun _ => ⟨[], rfl⟩
  | cons d ds ih =>
    intro h
    obtain ⟨l, hl⟩ := ih (fun d' hd' => h d' (List.mem_cons_of_mem _ hd'))
    have hd := h d (List.mem_cons_self _ _)
    match hfp : d.full_path with
    | none => simp [hfp] at hd
    | some p =>
      rw [hfp] at hd
      simp only [Option.getD_some] at hd
      have hfd : ∃ e, MaiEmoji.fromDict now d = .ok e := by
        unfold MaiEmoji.fromDict MaiEmoji.make
        rw [hfp]
        simp [hd]
      obtain ⟨e, he⟩ := hfd
      refine ⟨e :: l, ?_⟩
      unfold fromDictList
      rw [he, hl]

/-! ## Claim C1 -/

/-- C1: for every configuration, every manager state and every query,
`get_emoji_for_text` returns `None`: the `similarity_limit` attribute read
raises `AttributeError` (caught by the handler) as soon as a non-deleted
record with a non-empty tag list is scored, and otherwise the candidate list
is empty. -/
theorem c1_getEmojiForText_always_none (cfg : EmojiConfig) (now : ℚ) (pick : Nat)
    (st : MState) (q : String) :
    (getEmojiForText cfg now pick st q).1 = none := by
  unfold getEmojiForText
  by_cases h : st.emoji_objects = []
  · simp [h]
  · have h2 : similarityLimitAttr cfg = Except.error PyErr.attributeError := rfl
    rcases emojiSimilaritiesE_error PyErr.attributeError q st.emoji_objects with h1 | h1 <;>
      simp [h, h2, h1, sortDesc, topSlice, randomChoice]

/-! ## Claim C8 -/

/-- C8 counterexample: on two empty strings the code computes similarity `1`
(the spec's claimed value for this case is `0`). -/
theorem c8_counterexample :
    similarityChecked "" "" = .ok 1 ∧ (1 : ℚ) ≠ 0 := by
  refine ⟨?_, one_ne_zero⟩
  rw [similarityChecked_eq_ok, similarity_empty_empty]

/-- C8 (amended): the per-tag similarity computation is total — the division
guard means it never raises `ZeroDivisionError` and it always produces the
value of `similarity` — and when both strings are empty the computed
similarity equals `1` (not `0`). -/
theorem c8_similarity_total :
    (∀ q t : String, similarityChecked q t = .ok (similarity q t)) ∧
      similarityChecked "" "" = .ok 1 := by
  refine ⟨similarityChecked_eq_ok, ?_⟩
  rw [similarityChecked_eq_ok, similarity_empty_empty]

/-! ## Claim C9 -/

/-- C9 counterexample: a syntactically valid store whose single entry lacks a
`full_path` key makes the load path raise `KeyError` out of
`_load_all_emoji_objects` instead of yielding an empty sequence. -/
theorem c9_counterexample :
    loadAllEmojiObjects 0 (some [badDict]) = .error PyErr.keyError := rfl

/-- C9 (amended): unparseable persisted JSON yields the empty sequence, and
loading succeeds for every parsed store whose non-deleted entries carry a
non-empty `full_path`; but an entry with a missing or empty `full_path`
raises out of the load path (see the counterexample). -/
theorem c9_load_fails_soft :
    (∀ now : ℚ, loadAllEmojiObjects now none = .ok []) ∧
      ∀ (now : ℚ) (ds : List RecordDict),
        (∀ d ∈ ds, d.is_deleted.getD false = false → d.full_path.getD "" ≠ "") →
        ∃ l, loadAllEmojiObjects now (some ds) = .ok l := by
  constructor
  · intro now
    rfl
  · intro now ds h
    unfold loadAllEmojiObjects loadEmojiJson
    apply fromDictList_ok_of_good
    intro d hd
    rw [List.mem_filter] at hd
    exact h d hd.1 (by simpa using hd.2)

/-- C9 witness: a store with one well-formed entry loads successfully. -/
theorem c9_witness : ∃ l, loadAllEmojiObjects 0 (some [sampleEmoji.toDict]) = .ok l :=
  c9_load_fails_soft.2 0 [sampleEmoji.toDict] (by decide)

/-! ## Claim C6 -/

/-- The `is_deleted` entry written by `to_dict`. -/
theorem toDict_is_deleted (e : MaiEmoji) :
    (MaiEmoji.toDict e).is_deleted = some e.is_deleted := rfl

/-- Deserializing the dict of a constructor-shaped record restores the
record. -/
theorem fromDict_toDict (now : ℚ) (e : MaiEmoji) (h : WellFormed e) :
    MaiEmoji.fromDict now e.toDict = .ok e := by
  cases e with
  | mk fp pa fn emb hs ds em uc lu rt del fm =>
    obtain ⟨h1, h2, h3, h4⟩ := h
    simp only at h1 h2 h3 h4
    simp [MaiEmoji.fromDict, MaiEmoji.toDict, MaiEmoji.make, h1, h2, h3, h4]

/-- Round trip on the unfolded store representation. -/
theorem roundtrip_aux (now : ℚ) :
    ∀ objs : List MaiEmoji, (∀ e ∈ objs, WellFormed e) →
      fromDictList now
          ((objs.map MaiEmoji.toDict).filter (fun d => !(d.is_deleted.getD false))) =
        .ok (objs.filter (fun e => !e.is_deleted)) := by
  intro objs
  induction objs with
  | nil => exact fun _ => rfl
  | cons e rest ih =>
    intro h
    have hwf := fromDict_toDict now e (h e (List.mem_cons_self _ _))
    have ihh := ih (fun x hx => h x (List.mem_cons_of_mem _ hx))
    simp only [List.map_cons, List.filter_cons, toDict_is_deleted, Option.getD_some]
    by_cases hdel : e.is_deleted = true
    · simp [hdel, ihh]
    · simp only [Bool.not_eq_true] at hdel
      simp only [hdel, Bool.not_false, if_pos]
      unfold fromDictList
      rw [hwf, ihh]

/-- C6: saving a sequence of records and loading it back yields exactly the
non-deleted records, each equal to its pre-save value (records are
constructor-shaped: non-empty `full_path` with derived `path`/`filename`, as
the code always builds them). -/
theorem c6_roundtrip (now : ℚ) (objs : List MaiEmoji)
    (h : ∀ e ∈ objs, WellFormed e) :
    loadAllEmojiObjects now (some (saveAllEmojiObjects objs)) =
      .ok (objs.filter (fun e => !e.is_deleted)) := by
  unfold loadAllEmojiObjects loadEmojiJson saveAllEmojiObjects
  simp only [Option.getD_some]
  exact roundtrip_aux now objs h

/-- C6 witness: a live and a tombstoned record round-trip to just the live
one. -/
theorem c6_witness :
    loadAllEmojiObjects 0 (some (saveAllEmojiObjects [sampleEmoji, sampleEmojiDeleted])) =
      .ok [sampleEmoji] := by
  rw [c6_roundtrip 0 [sampleEmoji, sampleEmojiDeleted] (by decide)]
  simp only [Except.ok.injEq]
  decide

/-! ## Claim C5 -/

/-- A joined path is never the empty string. -/
theorem joinPath_ne_empty (d n : String) : joinPath d n ≠ "" := by
  intro hcon
  have hlen : (joinPath d n).length = 0 := by rw [hcon]; rfl
  rw [joinPath] at hlen
  simp [String.length_append] at hlen
  exact absurd hlen.1.2 (by decide)

/-- `get_emoji_from_manager` finds a record whenever an active one with the
hash is present. -/
theorem getEmojiFromManager_isSome (h : String) (l : List MaiEmoji)
    (hx : ∃ e ∈ l, e.is_deleted = false ∧ e.hash = h) :
    (getEmojiFromManager h l).isSome = true := by
  induction l with
  | nil => simp at hx
  | cons e rest ih =>
    rcases hx with ⟨x, hx1, hx2, hx3⟩
    rw [List.mem_cons] at hx1
    by_cases hc : (!e.is_deleted && decide (e.hash = h)) = true
    · simp [getEmojiFromManager, hc]
    · cases hx1 with
      | inl heq =>
        exfalso
        apply hc
        subst heq
        simp [hx2, hx3]
      | inr hmem =>
        simpa [getEmojiFromManager, hc] using ih ⟨x, hmem, hx2, hx3⟩

/-- C5: registering a staged file whose content hash equals the hash of an
existing active record fails and leaves the whole manager state — in-memory
records, persisted store and filesystem — unchanged. -/
theorem c5_duplicate_rejected (oracle : ImgOracle) (now : ℚ) (st : MState)
    (filename h fmt : String)
    (hread : oracle.read (joinPath EMOJI_APPROVED_DIR filename) = some (h, fmt))
    (hdup : ∃ e ∈ st.emoji_objects, e.is_deleted = false ∧ e.hash = h) :
    registerEmojiByFilename oracle now st filename = (false, st) := by
  have hne := joinPath_ne_empty EMOJI_APPROVED_DIR filename
  have hds := getEmojiFromManager_isSome h st.emoji_objects hdup
  unfold registerEmojiByFilename
  by_cases hex : st.fs.pathExists (joinPath EMOJI_APPROVED_DIR filename) = true
  · simp [hex, MaiEmoji.make, hne, hread, hds]
  · simp [hex]

/-- C5 witness: staging a file with `sampleEmoji`'s hash is rejected without
any state change. -/
theorem c5_witness :
    registerEmojiByFilename sampleOracle 0 stDupStaged "dup.png" = (false, stDupStaged) :=
  c5_duplicate_rejected sampleOracle 0 stDupStaged "dup.png" "h1" "png"
    (by decide) (by decide)

/-! ## Claim C3 -/

/-- C3: evaluating one scan cycle against the spec's eviction scenario.  At
capacity (1/1) with replacement enabled, the cycle leaves the state untouched:
no eviction selection runs and the staged file stays.  Over capacity (2
records, maximum 1) with replacement enabled, the cycle registers the staged
file directly: the collection grows to 3 records with none evicted.  In
neither case is `replace_a_emoji` involved — the scan loop never calls it. -/
theorem c3_no_eviction_in_cycle :
    scanCycle sampleOracle cfgReplaceMax1 0 stAtMax = stAtMax ∧
    (scanCycle sampleOracle cfgReplaceMax1 0 stOverMax).emoji_objects =
      [sampleEmoji, sampleEmojiB, newRegistered] ∧
    (scanCycle sampleOracle cfgReplaceMax1 0 stOverMax).emoji_num = 3 ∧
    (scanCycle sampleOracle cfgReplaceMax1 0 stOverMax).fs.approved = some [] := by
  refine ⟨?_, ?_, ?_, ?_⟩ <;> decide

/-! ## Claim C4 -/

/-- The record pass leaves intact records, the filesystem and the store
untouched. -/
theorem integrityScan_intact (fs : FS) (store : List RecordDict) :
    ∀ objs : List MaiEmoji,
      (∀ e ∈ objs, e.is_deleted = false ∧ fs.pathExists e.full_path = true ∧
        e.description ≠ "") →
      integrityScan fs store objs = (objs, 0, fs, store) := by
  intro objs
  induction objs with
  | nil => exact fun _ => rfl
  | cons e rest ih =>
    intro h
    obtain ⟨hd, hex, hdesc⟩ := h e (List.mem_cons_self _ _)
    have ihh := ih (fun x hx => h x (List.mem_cons_of_mem _ hx))
    simp [integrityScan, hd, hex, hdesc, ihh]

/-- The orphan sweep only touches the registered directory. -/
theorem cleanUnused_approved (fs : FS) (objs : List MaiEmoji) :
    (cleanUnusedEmojis fs objs).approved = fs.approved := by
  unfold cleanUnusedEmojis
  split <;> rfl

/-- The temp sweep only touches the temp directories. -/
theorem clearTemp_approved (fs : FS) : (clearTempEmoji fs).approved = fs.approved := rfl

/-- The integrity check never changes the configured maximum. -/
theorem checkIntegrity_num_max (st : MState) :
    (checkEmojiFileIntegrity st).emoji_num_max = st.emoji_num_max := by
  unfold checkEmojiFileIntegrity
  split
  · rfl
  · rfl

/-- On a state whose records are all intact and whose counter matches, the
integrity check changes nothing the scan loop later reads. -/
theorem checkIntegrity_intact (st : MState)
    (hnum : st.emoji_num = (st.emoji_objects.length : Int))
    (h : ∀ e ∈ st.emoji_objects, e.is_deleted = false ∧
      st.fs.pathExists e.full_path = true ∧ e.description ≠ "") :
    (checkEmojiFileIntegrity st).emoji_objects = st.emoji_objects ∧
    (checkEmojiFileIntegrity st).emoji_num = st.emoji_num ∧
    (checkEmojiFileIntegrity st).fs.approved = st.fs.approved ∧
    (checkEmojiFileIntegrity st).store = st.store := by
  unfold checkEmojiFileIntegrity
  by_cases hemp : st.emoji_objects = []
  · simp [hemp]
  · rw [integrityScan_intact st.fs st.store st.emoji_objects h]
    simp [hemp, cleanUnused_approved, hnum]

/-- When the staging directory exists and the admission guard is false, the
discovery step returns its input state unchanged. -/
theorem scanRegister_skip (oracle : ImgOracle) (cfg : EmojiConfig) (now : ℚ)
    (st2 : MState) (fls : List String)
    (happ : st2.fs.approved = some fls)
    (hguard : (decide (st2.emoji_num > st2.emoji_num_max) && cfg.do_replace ||
        decide (st2.emoji_num < st2.emoji_num_max)) = false) :
    scanRegister oracle cfg now st2 = st2 := by
  unfold scanRegister
  rw [happ]
  by_cases hfls : fls = []
  · simp [hfls]
  · simp [hfls, hguard]

/-- C4: with replacement disabled and the active count at the configured
maximum, one scan cycle (over intact records) invokes no registration: the
count, the record list and the staged files are all unchanged. -/
theorem c4_capacity_blocks (oracle : ImgOracle) (cfg : EmojiConfig) (now : ℚ)
    (st : MState) (fls : List String)
    (hdr : cfg.do_replace = false)
    (happ : st.fs.approved = some fls)
    (hmax : st.emoji_num = st.emoji_num_max)
    (hnum : st.emoji_num = (st.emoji_objects.length : Int))
    (hintact : ∀ e ∈ st.emoji_objects, e.is_deleted = false ∧
      st.fs.pathExists e.full_path = true ∧ e.description ≠ "") :
    (scanCycle oracle cfg now st).emoji_num = st.emoji_num ∧
    (scanCycle oracle cfg now st).fs.approved = some fls ∧
    (scanCycle oracle cfg now st).emoji_objects = st.emoji_objects := by
  obtain ⟨ho, hn, ha, _⟩ := checkIntegrity_intact st hnum hintact
  have hm := checkIntegrity_num_max st
  have hcycle : scanCycle oracle cfg now st =
      { checkEmojiFileIntegrity st with
        fs := clearTempEmoji (checkEmojiFileIntegrity st).fs } := by
    unfold scanCycle
    apply scanRegister_skip oracle cfg now _ fls
    · show (clearTempEmoji (checkEmojiFileIntegrity st).fs).approved = some fls
      rw [clearTemp_approved, ha, happ]
    · show (decide ((checkEmojiFileIntegrity st).emoji_num >
          (checkEmojiFileIntegrity st).emoji_num_max) && cfg.do_replace ||
          decide ((checkEmojiFileIntegrity st).emoji_num <
          (checkEmojiFileIntegrity st).emoji_num_max)) = false
      rw [hn, hm, hmax, hdr]
      simp
  rw [hcycle]
  refine ⟨hn, ?_, ho⟩
  show (clearTempEmoji (checkEmojiFileIntegrity st).fs).approved = some fls
  rw [clearTemp_approved, ha, happ]

/-- C4 witness: the 1/1 manager with replacement disabled and one staged file
takes a cycle that changes none of count, records or staged files. -/
theorem c4_witness :
    (scanCycle sampleOracle cfgNoReplace 0 stAtMax).emoji_num = stAtMax.emoji_num ∧
    (scanCycle sampleOracle cfgNoReplace 0 stAtMax).fs.approved = some ["new.png"] ∧
    (scanCycle sampleOracle cfgNoReplace 0 stAtMax).emoji_objects = stAtMax.emoji_objects :=
  c4_capacity_blocks sampleOracle cfgNoReplace 0 stAtMax ["new.png"]
    (by decide) (by decide) (by decide) (by decide) (by decide)

/-! ## Claim C2 -/

instance : IsTotal EmojiTriple (fun a b => b.2.1 ≤ a.2.1) :=
  ⟨fun a b => le_total b.2.1 a.2.1⟩

instance : IsTrans EmojiTriple (fun a b => b.2.1 ≤ a.2.1) :=
  ⟨fun _ _ _ h1 h2 => le_trans h2 h1⟩

/-- The triples produced by the inner tag loop: one per qualifying tag,
carrying that tag's own similarity. -/
theorem tagLoop_mem (q : String) (lim : ℚ) (e : MaiEmoji) :
    ∀ (ts : List String) (t : EmojiTriple),
      t ∈ tagLoop q lim e ts ↔
        (t.1 = e ∧ t.2.2 ∈ ts ∧ t.2.1 = similarity q t.2.2 ∧ lim < t.2.1) := by
  intro ts
  induction ts with
  | nil => intro t; simp [tagLoop]
  | cons s ss ih =>
    intro t
    unfold tagLoop
    by_cases hc : lim < similarity q s
    · rw [if_pos hc]
      constructor
      · intro ht
        rcases List.mem_cons.mp ht with h1 | h1
        · subst h1
          exact ⟨rfl, List.mem_cons_self _ _, rfl, hc⟩
        · have h2 := (ih t).mp h1
          exact ⟨h2.1, List.mem_cons_of_mem _ h2.2.1, h2.2.2⟩
      · rintro ⟨h1, h2, h3, h4⟩
        rcases List.mem_cons.mp h2 with h5 | h5
        · rcases t with ⟨t1, t2, t3⟩
          simp only at h1 h3 h5
          subst h1; subst h5; subst h3
          exact List.mem_cons_self _ _
        · exact List.mem_cons_of_mem _ ((ih t).mpr ⟨h1, h5, h3, h4⟩)
    · rw [if_neg hc, ih t]
      constructor
      · rintro ⟨h1, h2, h3, h4⟩
        exact ⟨h1, List.mem_cons_of_mem _ h2, h3, h4⟩
      · rintro ⟨h1, h2, h3, h4⟩
        rcases List.mem_cons.mp h2 with h5 | h5
        · rw [h3, h5] at h4
          exact absurd h4 hc
        · exact ⟨h1, h5, h3, h4⟩

/-- Membership in the matcher's candidate list: exactly one triple per
(active record, qualifying tag) pair. -/
theorem emojiSimilarities_mem (q : String) (lim : ℚ) :
    ∀ (objs : List MaiEmoji) (t : EmojiTriple),
      t ∈ emojiSimilarities q lim objs ↔
        (t.1 ∈ objs ∧ t.1.is_deleted = false ∧ t.1.emotion ≠ [] ∧
          t.2.2 ∈ t.1.emotion ∧ t.2.1 = similarity q t.2.2 ∧ lim < t.2.1) := by
  intro objs
  induction objs with
  | nil => intro t; simp [emojiSimilarities]
  | cons e rest ih =>
    intro t
    unfold emojiSimilarities
    by_cases hd : e.is_deleted = true
    · rw [if_pos hd, ih t]
      constructor
      · rintro ⟨h1, h2, h3, h4, h5, h6⟩
        exact ⟨List.mem_cons_of_mem _ h1, h2, h3, h4, h5, h6⟩
      · rintro ⟨h1, h2, h3, h4, h5, h6⟩
        rcases List.mem_cons.mp h1 with h7 | h7
        · rw [h7] at h2; rw [h2] at hd; exact absurd hd (by simp)
        · exact ⟨h7, h2, h3, h4, h5, h6⟩
    · rw [if_neg hd]
      by_cases hm : e.emotion = []
      · rw [if_pos hm, ih t]
        constructor
        · rintro ⟨h1, h2, h3, h4, h5, h6⟩
          exact ⟨List.mem_cons_of_mem _ h1, h2, h3, h4, h5, h6⟩
        · rintro ⟨h1, h2, h3, h4, h5, h6⟩
          rcases List.mem_cons.mp h1 with h7 | h7
          · exact absurd (h7 ▸ hm) h3
          · exact ⟨h7, h2, h3, h4, h5, h6⟩
      · rw [if_neg hm, List.mem_append, tagLoop_mem, ih t]
        constructor
        · rintro (⟨h1, h2, h3, h4⟩ | ⟨h1, h2, h3, h4, h5, h6⟩)
          · refine ⟨h1 ▸ List.mem_cons_self _ _, ?_, ?_, h1 ▸ h2, h3, h4⟩
            · rw [h1]; exact Bool.not_eq_true _ ▸ (by simpa using hd)
            · rw [h1]; exact hm
          · exact ⟨List.mem_cons_of_mem _ h1, h2, h3, h4, h5, h6⟩
        · rintro ⟨h1, h2, h3, h4, h5, h6⟩
          rcases List.mem_cons.mp h1 with h7 | h7
          · exact Or.inl ⟨h7, h7 ▸ h4, h5, h6⟩
          · exact Or.inr ⟨h7, h2, h3, h4, h5, h6⟩

/-- `random.choice` only ever returns an element of its input. -/
theorem randomChoice_mem (pick : Nat) (l : List EmojiTriple) (x : EmojiTriple)
    (h : randomChoice pick l = some x) : x ∈ l := by
  cases l with
  | nil => simp [randomChoice] at h
  | cons a as =>
    simp only [randomChoice, Option.some.injEq] at h
    subst h
    by_cases hlt : pick % (as.length + 1) < (a :: as).length
    · rw [List.getD_eq_getElem (a :: as) a hlt]
      exact List.getElem_mem hlt
    · rw [List.getD_eq_default]
      · exact List.mem_cons_self _ _
      · omega

/-- C2 (amended): for every query, threshold value (supplied as a parameter —
the configured attribute read itself raises, see C1) and record list, the
candidate list holds one triple per (record, tag) pair whose similarity
strictly exceeds the threshold, carrying that tag's own similarity (a record
with several qualifying tags appears several times, not once with its
maximum); the list is sorted descending by similarity into a permutation of
itself; at most the first 10 triples are kept; and the random choice picks one
of those triples. -/
theorem c2_matcher_per_tag (q : String) (lim : ℚ) (objs : List MaiEmoji) (pick : Nat) :
    (∀ t : EmojiTriple, t ∈ emojiSimilarities q lim objs ↔
        (t.1 ∈ objs ∧ t.1.is_deleted = false ∧ t.1.emotion ≠ [] ∧
          t.2.2 ∈ t.1.emotion ∧ t.2.1 = similarity q t.2.2 ∧ lim < t.2.1)) ∧
    List.Sorted (fun a b : EmojiTriple => b.2.1 ≤ a.2.1)
      (sortDesc (emojiSimilarities q lim objs)) ∧
    List.Perm (sortDesc (emojiSimilarities q lim objs)) (emojiSimilarities q lim objs) ∧
    (topSlice (sortDesc (emojiSimilarities q lim objs))).length ≤ 10 ∧
    (∀ t ∈ topSlice (sortDesc (emojiSimilarities q lim objs)),
      t ∈ emojiSimilarities q lim objs) ∧
    (∀ sel, randomChoice pick (topSlice (sortDesc (emojiSimilarities q lim objs))) =
        some sel →
      sel ∈ topSlice (sortDesc (emojiSimilarities q lim objs))) := by
  refine ⟨emojiSimilarities_mem q lim objs, ?_, ?_, ?_, ?_, ?_⟩
  · exact List.sorted_insertionSort _ _
  · exact List.perm_insertionSort _ _
  · simp only [topSlice, List.length_take]
    exact Nat.min_le_left 10 _
  · intro t ht
    exact (List.perm_insertionSort _ _).mem_iff.mp (List.mem_of_mem_take ht)
  · intro sel hsel
    exact randomChoice_mem pick _ sel hsel

/-- C2 counterexample: with threshold 0, querying `"aa"` against a record
tagged `["aa", "ab"]` yields two surviving triples for the one record — the
second carrying similarity 1/2, not the record's maximum 1 — refuting
"keep, per record, the maximum similarity". -/
theorem c2_counterexample :
    emojiSimilarities "aa" 0 [sampleEmoji] =
      [(sampleEmoji, 1, "aa"), (sampleEmoji, 1/2, "ab")] ∧ ((1 : ℚ)/2 ≠ 1) := by
  have hl1 : levenshteinDistance "aa" "aa" = 0 := by decide
  have hl2 : levenshteinDistance "aa" "ab" = 1 := by decide
  have hlen : ("aa" : String).length = 2 ∧ ("ab" : String).length = 2 := by decide
  have h1 : similarity "aa" "aa" = 1 := by
    unfold similarity
    rw [hl1, hlen.1]
    norm_num
  have h2 : similarity "aa" "ab" = 1/2 := by
    unfold similarity
    rw [hl2, hlen.1, hlen.2]
    norm_num
  constructor
  · norm_num [emojiSimilarities, tagLoop, h1, h2, sampleEmoji]
    intro h
    exact absurd h (by decide)
  · norm_num

/-- C2 witness: the amended theorem applied at the counterexample input. -/
theorem c2_witness :
    (topSlice (sortDesc (emojiSimilarities "aa" 0 [sampleEmoji]))).length ≤ 10 :=
  (c2_matcher_per_tag "aa" 0 [sampleEmoji] 0).2.2.2.1

/-! ## Claim C10 -/

/-- A record deserialized from a dict whose `is_deleted` entry is falsy is
itself not tombstoned. -/
theorem fromDict_alive (now : ℚ) (d : RecordDict) (e : MaiEmoji)
    (hd : d.is_deleted.getD false = false)
    (h : MaiEmoji.fromDict now d = .ok e) : e.is_deleted = false := by
  unfold MaiEmoji.fromDict MaiEmoji.make at h
  match hfp : d.full_path with
  | none =>
    rw [hfp] at h
    exact absurd h (by simp)
  | some p =>
    rw [hfp] at h
    by_cases hp : p = ""
    · simp [hp] at h
    · simp only [hp, if_false, Except.ok.injEq] at h
      rw [← h]
      exact hd

/-- All records produced by a successful dict-list conversion whose inputs
have falsy `is_deleted` entries are live. -/
theorem fromDictList_alive (now : ℚ) :
    ∀ (ds : List RecordDict) (l : List MaiEmoji),
      (∀ d ∈ ds, d.is_deleted.getD false = false) →
      fromDictList now ds = .ok l → ∀ e ∈ l, e.is_deleted = false := by
  intro ds
  induction ds with
  | nil =>
    intro l _ h
    simp only [fromDictList, Except.ok.injEq] at h
    subst h
    simp
  | cons d ds ih =>
    intro l hall h
    unfold fromDictList at h
    match hfd : MaiEmoji.fromDict now d with
    | .error err => rw [hfd] at h; exact absurd h (by simp)
    | .ok e =>
      rw [hfd] at h
      match hrest : fromDictList now ds with
      | .error err => rw [hrest] at h; exact absurd h (by simp)
      | .ok l' =>
        rw [hrest] at h
        simp only [Except.ok.injEq] at h
        subst h
        intro x hx
        rcases List.mem_cons.mp hx with h1 | h1
        · subst h1
          exact fromDict_alive now d x (hall d (List.mem_cons_self _ _)) hfd
        · exact ih l' (fun d' hd' => hall d' (List.mem_cons_of_mem _ hd')) hrest x h1

/-- Every record a successful load returns is live. -/
theorem loadAll_alive (now : ℚ) (raw : RawStore) (l : List MaiEmoji)
    (h : loadAllEmojiObjects now raw = .ok l) : ∀ e ∈ l, e.is_deleted = false := by
  unfold loadAllEmojiObjects at h
  apply fromDictList_alive now _ l _ h
  intro d hd
  rw [List.mem_filter] at hd
  simpa using hd.2

/-- A successful usage-recording pass preserves length and liveness. -/
theorem recordUsageList_some (now : ℚ) (h : String) :
    ∀ (l l' : List MaiEmoji), recordUsageList now h l = some l' →
      l'.length = l.length ∧
      ((∀ e ∈ l, e.is_deleted = false) → ∀ e ∈ l', e.is_deleted = false) := by
  intro l
  induction l with
  | nil => intro l' hl; simp [recordUsageList] at hl
  | cons e rest ih =>
    intro l' hl
    unfold recordUsageList at hl
    by_cases hc : e.hash = h
    · rw [if_pos hc] at hl
      simp only [Option.some.injEq] at hl
      subst hl
      refine ⟨by simp, ?_⟩
      intro hall x hx
      rcases List.mem_cons.mp hx with h1 | h1
      · rw [h1]
        simpa using hall e (List.mem_cons_self _ _)
      · exact hall x (List.mem_cons_of_mem _ h1)
    · rw [if_neg hc] at hl
      rcases hrec : recordUsageList now h rest with _ | r
      · rw [hrec] at hl
        exact absurd hl (by simp)
      · rw [hrec] at hl
        simp only [Option.map_some', Option.some.injEq] at hl
        subst hl
        obtain ⟨hlen, halive⟩ := ih r hrec
        refine ⟨by simp [hlen], ?_⟩
        intro hall x hx
        rcases List.mem_cons.mp hx with h1 | h1
        · rw [h1]
          exact hall e (List.mem_cons_self _ _)
        · exact halive (fun y hy => hall y (List.mem_cons_of_mem _ hy)) x h1

/-- `record_usage` preserves the C10 invariant. -/
theorem recordUsage_inv (now : ℚ) (st : MState) (h : String) (hInv : Inv st) :
    Inv (recordUsage now st h) := by
  unfold recordUsage
  match hr : recordUsageList now h st.emoji_objects with
  | none => exact hInv
  | some l' =>
    obtain ⟨hlen, halive⟩ := recordUsageList_some now h st.emoji_objects l' hr
    exact ⟨halive hInv.1, by rw [hInv.2, hlen]⟩

/-- The constructor only builds live records. -/
theorem make_ok_alive (now : ℚ) (fp : String) (e : MaiEmoji)
    (h : MaiEmoji.make now fp = .ok e) : e.is_deleted = false := by
  unfold MaiEmoji.make at h
  by_cases hp : fp = ""
  · rw [if_pos hp] at h
    exact absurd h (by simp)
  · rw [if_neg hp] at h
    simp only [Except.ok.injEq] at h
    rw [← h]

/-- A failed `register_to_json` leaves the state unchanged. -/
theorem registerToJson_false (st : MState) (e : MaiEmoji) (st1 : MState) (e' : MaiEmoji)
    (h : registerToJson st e = (false, st1, e')) : st1 = st := by
  unfold registerToJson at h
  by_cases hex : st.fs.pathExists e.full_path = true
  · rcases hreg : st.fs.registed with _ | names
    · rw [hreg] at h
      simp only [hex, Bool.not_true, Bool.false_eq_true, if_false, Prod.mk.injEq] at h
      exact h.2.1.symm
    · rw [hreg] at h
      simp only [hex, Bool.not_true, Bool.false_eq_true, if_false, Prod.mk.injEq] at h
      exact absurd h.1 (by simp)
  · rw [Bool.not_eq_true] at hex
    simp only [hex, Bool.not_false, if_true, Prod.mk.injEq] at h
    exact h.2.1.symm

/-- A successful `register_to_json` changes neither the record list nor the
counter, and keeps the record's tombstone flag. -/
theorem registerToJson_true (st : MState) (e : MaiEmoji) (st1 : MState) (e3 : MaiEmoji)
    (h : registerToJson st e = (true, st1, e3)) :
    st1.emoji_objects = st.emoji_objects ∧ st1.emoji_num = st.emoji_num ∧
      e3.is_deleted = e.is_deleted := by
  unfold registerToJson at h
  by_cases hex : st.fs.pathExists e.full_path = true
  · rcases hreg : st.fs.registed with _ | names
    · rw [hreg] at h
      simp only [hex, Bool.not_true, Bool.false_eq_true, if_false, Prod.mk.injEq] at h
      exact absurd h.1 (by simp)
    · rw [hreg] at h
      simp only [hex, Bool.not_true, Bool.false_eq_true, if_false, Prod.mk.injEq] at h
      obtain ⟨hst, he3⟩ := h.2
      refine ⟨?_, ?_, ?_⟩
      · rw [← hst]
      · rw [← hst]
      · rw [← he3]
  · rw [Bool.not_eq_true] at hex
    simp only [hex, Bool.not_false, if_true, Prod.mk.injEq] at h
    exact absurd h.1 (by simp)

/-- The registration tail either leaves the state unchanged or appends the
(one) new record and increments the counter. -/
theorem registerFinish_snd (st : MState) (e2 : MaiEmoji) (he2 : e2.is_deleted = false) :
    (registerFinish st e2).2 = st ∨
    ∃ e3, e3.is_deleted = false ∧
      (registerFinish st e2).2.emoji_objects = st.emoji_objects ++ [e3] ∧
      (registerFinish st e2).2.emoji_num = st.emoji_num + 1 := by
  unfold registerFinish
  rcases hreg : registerToJson st e2 with ⟨b, st1, e3⟩
  cases b
  · exact Or.inl (registerToJson_false st e2 st1 e3 hreg)
  · obtain ⟨ho, hn, hd⟩ := registerToJson_true st e2 st1 e3 hreg
    refine Or.inr ⟨e3, hd.trans he2, ?_, ?_⟩
    · show st1.emoji_objects ++ [e3] = st.emoji_objects ++ [e3]
      rw [ho]
    · show st1.emoji_num + 1 = st.emoji_num + 1
      rw [hn]

/-- `register_emoji_by_filename` either leaves the state unchanged or appends
one live record and increments the counter. -/
theorem register_snd (oracle : ImgOracle) (now : ℚ) (st : MState) (f : String) :
    (registerEmojiByFilename oracle now st f).2 = st ∨
    ∃ e3, e3.is_deleted = false ∧
      (registerEmojiByFilename oracle now st f).2.emoji_objects =
        st.emoji_objects ++ [e3] ∧
      (registerEmojiByFilename oracle now st f).2.emoji_num = st.emoji_num + 1 := by
  simp only [registerEmojiByFilename]
  by_cases hex : st.fs.pathExists (joinPath EMOJI_APPROVED_DIR f) = true
  · have hcond : ¬((!st.fs.pathExists (joinPath EMOJI_APPROVED_DIR f)) = true) := by
      simp [hex]
    rw [if_neg hcond]
    have hmk : MaiEmoji.make now (joinPath EMOJI_APPROVED_DIR f) =
        .ok { full_path := joinPath EMOJI_APPROVED_DIR f,
              path := dirname (joinPath EMOJI_APPROVED_DIR f),
              filename := basename (joinPath EMOJI_APPROVED_DIR f),
              embedding := [], hash := "", description := "", emotion := [],
              usage_count := 0, last_used_time := now, register_time := now,
              is_deleted := false, format := "" } := by
      unfold MaiEmoji.make
      rw [if_neg (joinPath_ne_empty _ _)]
    rw [hmk]
    dsimp only
    rw [if_neg hcond]
    rcases hread : oracle.read (joinPath EMOJI_APPROVED_DIR f) with _ | ⟨hh, fmt⟩
    · exact Or.inl rfl
    · dsimp only
      by_cases hdup : (getEmojiFromManager hh st.emoji_objects).isSome = true
      · rw [if_pos hdup]
        exact Or.inl rfl
      · rw [if_neg hdup]
        exact registerFinish_snd st _ rfl
  · have hex2 : st.fs.pathExists (joinPath EMOJI_APPROVED_DIR f) = false := by
      rwa [Bool.not_eq_true] at hex
    rw [if_pos (by simp [hex2])]
    exact Or.inl rfl

/-- `register_emoji_by_filename` preserves the C10 invariant. -/
theorem register_inv (oracle : ImgOracle) (now : ℚ) (st : MState) (f : String)
    (h : Inv st) : Inv ((registerEmojiByFilename oracle now st f).2) := by
  rcases register_snd oracle now st f with h1 | ⟨e3, he3, ho, hn⟩
  · rw [h1]; exact h
  · constructor
    · intro e he
      rw [ho] at he
      rcases List.mem_append.mp he with h2 | h2
      · exact h.1 e h2
      · rw [List.mem_singleton.mp h2]
        exact he3
    · rw [hn, ho, h.2, List.length_append]
      simp only [List.length_singleton]
      push_cast
      ring

/-- `get_emoji_from_manager` returns a member carrying the requested hash. -/
theorem getEmojiFromManager_spec (h : String) :
    ∀ (l : List MaiEmoji) (e : MaiEmoji), getEmojiFromManager h l = some e →
      e ∈ l ∧ e.hash = h := by
  intro l
  induction l with
  | nil => intro e he; simp [getEmojiFromManager] at he
  | cons x rest ih =>
    intro e he
    unfold getEmojiFromManager at he
    by_cases hc : (!x.is_deleted && decide (x.hash = h)) = true
    · rw [if_pos hc] at he
      simp only [Option.some.injEq] at he
      subst he
      refine ⟨List.mem_cons_self _ _, ?_⟩
      exact of_decide_eq_true (Bool.and_elim_right hc)
    · rw [if_neg hc] at he
      obtain ⟨hmem, hh⟩ := ih e he
      exact ⟨List.mem_cons_of_mem _ hmem, hh⟩

/-- Filtering away a hash that occurs once (hashes pairwise distinct) removes
exactly one record. -/
theorem filter_hash_length (h : String) :
    ∀ (l : List MaiEmoji) (x : MaiEmoji), x ∈ l → x.hash = h →
      (l.map (·.hash)).Nodup →
      (l.filter (fun e => e.hash ≠ h)).length + 1 = l.length := by
  intro l
  induction l with
  | nil => intro x hx; simp at hx
  | cons y rest ih =>
    intro x hx hxh hnd
    rw [List.map_cons, List.nodup_cons] at hnd
    by_cases hy : y.hash = h
    · have hrest : ∀ e ∈ rest, e.hash ≠ h := by
        intro e he hcon
        exact hnd.1 (by rw [hy, ← hcon]; exact List.mem_map_of_mem _ he)
      rw [List.filter_cons]
      have hcond : ¬(decide (y.hash ≠ h) = true) := by simp [hy]
      rw [if_neg hcond]
      have hfr : rest.filter (fun e => e.hash ≠ h) = rest :=
        List.filter_eq_self.mpr (fun e he => by simpa using hrest e he)
      rw [hfr]
      rfl
    · have hxr : x ∈ rest := by
        rcases List.mem_cons.mp hx with h1 | h1
        · exact absurd (h1 ▸ hxh) hy
        · exact h1
      rw [List.filter_cons]
      have hcond : decide (y.hash ≠ h) = true := by simp [hy]
      rw [if_pos hcond]
      have := ih x hxr hxh hnd.2
      simp only [List.length_cons]
      omega

/-- `delete_emoji` preserves the C10 invariant when the active hashes are
pairwise distinct. -/
theorem delete_inv (st : MState) (h : String) (hInv : Inv st)
    (hnd : (st.emoji_objects.map (·.hash)).Nodup) :
    Inv ((deleteEmojiOp st h).2) := by
  unfold deleteEmojiOp
  rcases hg : getEmojiFromManager h st.emoji_objects with _ | e
  · exact hInv
  · obtain ⟨hmem, hhash⟩ := getEmojiFromManager_spec h st.emoji_objects e hg
    have hlen := filter_hash_length h st.emoji_objects e hmem hhash hnd
    dsimp only
    constructor
    · intro x hx
      exact hInv.1 x (List.mem_of_mem_filter hx)
    · show st.emoji_num - 1 =
        ((st.emoji_objects.filter (fun x => x.hash ≠ h)).length : Int)
      rw [hInv.2]
      omega

/-- The records kept by the integrity pass are live, and when the input is
all-live the decrement matches the number of dropped records. -/
theorem integrityScan_alive (objs : List MaiEmoji) :
    ∀ (fs : FS) (store : List RecordDict),
      (∀ e ∈ (integrityScan fs store objs).1, e.is_deleted = false) ∧
      ((∀ e ∈ objs, e.is_deleted = false) →
        ((integrityScan fs store objs).1.length : Int) +
          (integrityScan fs store objs).2.1 = (objs.length : Int)) := by
  induction objs with
  | nil =>
    intro fs store
    exact ⟨by simp [integrityScan], by intro; simp [integrityScan]⟩
  | cons e rest ih =>
    intro fs store
    unfold integrityScan
    by_cases hd : e.is_deleted = true
    · rw [if_pos hd]
      refine ⟨(ih fs store).1, ?_⟩
      intro hall
      exact absurd (hall e (List.mem_cons_self _ _)) (by simp [hd])
    · rw [if_neg hd]
      by_cases hex : (!fs.pathExists e.full_path) = true
      · rw [if_pos hex]
        dsimp only
        have ihh := ih fs (store.filter (fun d => d.hash ≠ some e.hash))
        rcases hres : integrityScan fs
            (store.filter (fun d => d.hash ≠ some e.hash)) rest with ⟨kept, dec, fs2, store2⟩
        rw [hres] at ihh
        dsimp only at ihh ⊢
        refine ⟨ihh.1, ?_⟩
        intro hall
        have h2 := ihh.2 (fun x hx => hall x (List.mem_cons_of_mem _ hx))
        simp only [List.length_cons]
        push_cast at h2 ⊢
        omega
      · rw [if_neg hex]
        by_cases hde : e.description = ""
        · rw [if_pos hde]
          dsimp only
          have ihh := ih (fs.removePath e.full_path)
            (store.filter (fun d => d.hash ≠ some e.hash))
          rcases hres : integrityScan (fs.removePath e.full_path)
              (store.filter (fun d => d.hash ≠ some e.hash)) rest with ⟨kept, dec, fs2, store2⟩
          rw [hres] at ihh
          dsimp only at ihh ⊢
          refine ⟨ihh.1, ?_⟩
          intro hall
          have h2 := ihh.2 (fun x hx => hall x (List.mem_cons_of_mem _ hx))
          simp only [List.length_cons]
          push_cast at h2 ⊢
          omega
        · rw [if_neg hde]
          dsimp only
          have ihh := ih fs store
          rcases hres : integrityScan fs store rest with ⟨kept, dec, fs2, store2⟩
          rw [hres] at ihh
          dsimp only at ihh ⊢
          constructor
          · intro x hx
            rcases List.mem_cons.mp hx with h1 | h1
            · rw [h1]
              simpa using hd
            · exact ihh.1 x h1
          · intro hall
            have h2 := ihh.2 (fun x hx => hall x (List.mem_cons_of_mem _ hx))
            simp only [List.length_cons]
            push_cast at h2 ⊢
            omega

/-- The integrity check preserves the C10 invariant. -/
theorem checkIntegrity_inv (st : MState) (h : Inv st) :
    Inv (checkEmojiFileIntegrity st) := by
  obtain ⟨halive, hnum⟩ := h
  unfold checkEmojiFileIntegrity
  by_cases hemp : st.emoji_objects = []
  · rw [if_pos hemp]
    exact ⟨halive, hnum⟩
  · rw [if_neg hemp]
    dsimp only
    have hs := integrityScan_alive st.emoji_objects st.fs st.store
    rcases hres : integrityScan st.fs st.store st.emoji_objects with ⟨kept, dec, fs1, store1⟩
    rw [hres] at hs
    dsimp only at hs ⊢
    have hcount := hs.2 halive
    refine ⟨hs.1, ?_⟩
    show (st.emoji_objects.length : Int) - dec = (kept.length : Int)
    omega

/-- `get_all_emoji_from_json` establishes the C10 invariant outright. -/
theorem getAll_inv (now : ℚ) (st : MState) : Inv (getAllEmojiFromJson now st) := by
  unfold getAllEmojiFromJson
  match hl : loadAllEmojiObjects now (some st.store) with
  | .error err => exact ⟨by simp, by simp⟩
  | .ok l => exact ⟨loadAll_alive now (some st.store) l hl, rfl⟩

/-- A successful `initialize` establishes the C10 invariant. -/
theorem initializeOp_inv (now : ℚ) (raw : RawStore) (st : MState) (l : List MaiEmoji)
    (h : loadAllEmojiObjects now raw = .ok l) : Inv (initializeOp now raw st) := by
  unfold initializeOp
  rw [h]
  exact ⟨loadAll_alive now raw l h, rfl⟩

/-- C10 (amended): the invariant "no in-memory record is tombstoned and
`emoji_num` equals the list length" is established by `initialize` (when the
load succeeds) and by `get_all_emoji_from_json`, and preserved by
`record_usage`, `register_emoji_by_filename`, the integrity check, and — when
the active hashes are pairwise distinct — by `delete_emoji`.  (Without
distinctness, `delete_emoji` removes every record with the hash while
decrementing the counter once; see the counterexample.) -/
theorem c10_inv_preserved (oracle : ImgOracle) (op : RegOp) (st : MState)
    (h : opPre op st) : Inv (applyOp oracle op st) := by
  cases op with
  | recUsage now hh => exact recordUsage_inv now st hh h
  | regFile now f => exact register_inv oracle now st f h
  | delEmoji hh => exact delete_inv st hh h.1 h.2
  | integrity => exact checkIntegrity_inv st h
  | getAll now => exact getAll_inv now st
  | initStore now raw =>
    obtain ⟨l, hl⟩ := h
    exact initializeOp_inv now raw st l hl

/-- C10 counterexample: a state with two active records sharing a hash
satisfies the invariant, but one `delete_emoji` call on that hash breaks it —
both records are removed while the counter drops by one. -/
theorem c10_counterexample :
    Inv stDupHash ∧ ¬ Inv (deleteEmojiOp stDupHash "h1").2 :=
  ⟨by decide, by decide⟩

/-- C10 witness: the amended theorem applied to a concrete delete. -/
theorem c10_witness : Inv (applyOp sampleOracle (RegOp.delEmoji "h1") stDupStaged) :=
  c10_inv_preserved sampleOracle (RegOp.delEmoji "h1") stDupStaged ⟨by decide, by decide⟩

/-! ## Claim C7 -/

/-- Deleting one path from a directory leaves the presence of any other path
unchanged. -/
theorem dirHas_dirRemove_ne (dir : String) (o : Option (List String)) (p q : String)
    (hne : p ≠ q) : dirHas dir (dirRemove dir o q) p = dirHas dir o p := by
  cases o with
  | none => rfl
  | some l =>
    simp only [dirHas, dirRemove, Option.map_some', Option.getD_some]
    rw [Bool.eq_iff_iff]
    simp only [List.any_eq_true, List.mem_filter, decide_eq_true_eq]
    constructor
    · rintro ⟨n, ⟨hn, _⟩, hp⟩
      exact ⟨n, hn, hp⟩
    · rintro ⟨n, hn, hp⟩
      exact ⟨n, ⟨hn, by rw [hp]; exact hne⟩, hp⟩

/-- Deleting one path keeps every other path in the loose-file list. -/
theorem contains_filter_ne (l : List String) (p q : String) (hne : p ≠ q) :
    (l.filter (· ≠ q)).contains p = l.contains p := by
  rw [Bool.eq_iff_iff]
  simp only [List.elem_iff, List.mem_filter, decide_eq_true_eq]
  constructor
  · rintro ⟨hp, _⟩
    exact hp
  · intro hp
    exact ⟨hp, hne⟩

/-- `os.remove` of one path does not change the existence of another. -/
theorem removePath_pathExists_ne (fs : FS) (p q : String) (hne : p ≠ q) :
    (fs.removePath q).pathExists p = fs.pathExists p := by
  unfold FS.pathExists FS.removePath
  dsimp only
  rw [dirHas_dirRemove_ne _ _ _ _ hne, dirHas_dirRemove_ne _ _ _ _ hne,
    dirHas_dirRemove_ne _ _ _ _ hne, dirHas_dirRemove_ne _ _ _ _ hne,
    contains_filter_ne _ _ _ hne]

/-- Membership in a directory listing after one `os.remove`. -/
theorem dirRemove_mem (dir : String) (o : Option (List String)) (q n : String) :
    n ∈ (dirRemove dir o q).getD [] ↔ (n ∈ o.getD [] ∧ joinPath dir n ≠ q) := by
  cases o <;> simp [dirRemove, List.mem_filter]

/-- Membership in the registered directory after a sequence of removes. -/
theorem foldl_removePath_registed (ps : List String) :
    ∀ (fs : FS) (n : String),
      n ∈ ((ps.foldl FS.removePath fs).registed.getD []) ↔
        (n ∈ fs.registed.getD [] ∧ joinPath EMOJI_REGISTED_DIR n ∉ ps) := by
  induction ps with
  | nil => intro fs n; simp
  | cons p ps ih =>
    intro fs n
    rw [List.foldl_cons, ih]
    have hr : (FS.removePath fs p).registed = dirRemove EMOJI_REGISTED_DIR fs.registed p :=
      rfl
    rw [hr, dirRemove_mem]
    simp only [List.mem_cons]
    tauto

/-- The removal condition only depends on the filesystem through the record's
own path. -/
theorem removePredB_congr (fs1 fs2 : FS) (x : MaiEmoji)
    (h : fs1.pathExists x.full_path = fs2.pathExists x.full_path) :
    removePredB fs1 x = removePredB fs2 x := by
  unfold removePredB
  rw [h]

/-- Unfolding the removal condition. -/
theorem removePredB_false_iff (fs : FS) (e : MaiEmoji) :
    removePredB fs e = false ↔
      (e.is_deleted = false ∧ fs.pathExists e.full_path = true ∧
        e.description ≠ "") := by
  unfold removePredB
  simp [Bool.or_eq_false_iff]
  tauto

/-- The paths the integrity pass deletes only depend on the filesystem
through the records' own paths. -/
theorem descRemovedPaths_congr (fs1 fs2 : FS) (objs : List MaiEmoji)
    (h : ∀ x ∈ objs, fs1.pathExists x.full_path = fs2.pathExists x.full_path) :
    descRemovedPaths fs1 objs = descRemovedPaths fs2 objs := by
  unfold descRemovedPaths
  congr 1
  apply List.filter_congr
  intro x hx
  rw [h x hx]

/-- Characterization of the integrity pass over records with pairwise
distinct paths: it keeps exactly the records passing the removal condition of
the initial filesystem, and its filesystem effect is the removal of the
empty-description records' files. -/
theorem integrityScan_spec (objs : List MaiEmoji) :
    ∀ (fs : FS) (store : List RecordDict),
      objs.Pairwise (fun a b => a.full_path ≠ b.full_path) →
      (integrityScan fs store objs).1 = objs.filter (fun e => !removePredB fs e) ∧
      (integrityScan fs store objs).2.2.1 =
        (descRemovedPaths fs objs).foldl FS.removePath fs := by
  induction objs with
  | nil => intro fs store _; exact ⟨rfl, rfl⟩
  | cons e rest ih =>
    intro fs store hp
    rw [List.pairwise_cons] at hp
    obtain ⟨hpe, hp2⟩ := hp
    unfold integrityScan
    by_cases hdel : e.is_deleted = true
    · rw [if_pos hdel]
      obtain ⟨h1, h2⟩ := ih fs store hp2
      have hrp : removePredB fs e = true := by simp [removePredB, hdel]
      have hdp : descRemovedPaths fs (e :: rest) = descRemovedPaths fs rest := by
        unfold descRemovedPaths
        simp [List.filter_cons, hdel]
      constructor
      · rw [h1, List.filter_cons, hrp]
        simp
      · rw [h2, hdp]
    · rw [if_neg hdel]
      by_cases hex : (!fs.pathExists e.full_path) = true
      · rw [if_pos hex]
        have hex2 : fs.pathExists e.full_path = false := by simpa using hex
        dsimp only
        obtain ⟨h1, h2⟩ := ih fs (store.filter (fun d => d.hash ≠ some e.hash)) hp2
        rcases hres : integrityScan fs (store.filter (fun d => d.hash ≠ some e.hash)) rest
          with ⟨kept, dec, fs2, store2⟩
        rw [hres] at h1 h2
        dsimp only at h1 h2 ⊢
        have hrp : removePredB fs e = true := by simp [removePredB, hex2]
        have hdp : descRemovedPaths fs (e :: rest) = descRemovedPaths fs rest := by
          unfold descRemovedPaths
          simp [List.filter_cons, hex2]
        constructor
        · rw [h1, List.filter_cons, hrp]
          simp
        · rw [h2, hdp]
      · rw [if_neg hex]
        have hex2 : fs.pathExists e.full_path = true := by simpa using hex
        by_cases hde : e.description = ""
        · rw [if_pos hde]
          dsimp only
          have hcongr : ∀ x ∈ rest,
              (fs.removePath e.full_path).pathExists x.full_path =
                fs.pathExists x.full_path := by
            intro x hx
            exact removePath_pathExists_ne fs x.full_path e.full_path (hpe x hx).symm
          obtain ⟨h1, h2⟩ := ih (fs.removePath e.full_path)
            (store.filter (fun d => d.hash ≠ some e.hash)) hp2
          rcases hres : integrityScan (fs.removePath e.full_path)
              (store.filter (fun d => d.hash ≠ some e.hash)) rest
            with ⟨kept, dec, fs2, store2⟩
          rw [hres] at h1 h2
          dsimp only at h1 h2 ⊢
          have hrp : removePredB fs e = true := by simp [removePredB, hde]
          constructor
          · rw [h1, List.filter_cons, hrp]
            have hfe : rest.filter (fun x => !removePredB (fs.removePath e.full_path) x) =
                rest.filter (fun x => !removePredB fs x) := by
              apply List.filter_congr
              intro x hx
              rw [removePredB_congr _ _ x (hcongr x hx)]
            rw [hfe]
            simp
          · rw [h2, descRemovedPaths_congr _ _ rest hcongr]
            have hdp : descRemovedPaths fs (e :: rest) =
                e.full_path :: descRemovedPaths fs rest := by
              unfold descRemovedPaths
              simp [List.filter_cons, hdel, hex2, hde]
            rw [hdp, List.foldl_cons]
        · rw [if_neg hde]
          dsimp only
          obtain ⟨h1, h2⟩ := ih fs store hp2
          rcases hres : integrityScan fs store rest with ⟨kept, dec, fs2, store2⟩
          rw [hres] at h1 h2
          dsimp only at h1 h2 ⊢
          have hrp : removePredB fs e = false := by
            rw [removePredB_false_iff]
            exact ⟨by simpa using hdel, hex2, hde⟩
          have hdp : descRemovedPaths fs (e :: rest) = descRemovedPaths fs rest := by
            unfold descRemovedPaths
            simp [List.filter_cons, hde]
          constructor
          · rw [h1, List.filter_cons, hrp]
            simp
          · rw [h2, hdp]

/-- Membership in the registered directory after the orphan sweep. -/
theorem cleanUnused_registed_mem (fs : FS) (objs : List MaiEmoji) (n : String) :
    n ∈ ((cleanUnusedEmojis fs objs).registed.getD []) ↔
      (n ∈ fs.registed.getD [] ∧
        joinPath EMOJI_REGISTED_DIR n ∈
          ((objs.filter (fun e => !e.is_deleted)).map (·.full_path))) := by
  unfold cleanUnusedEmojis
  rcases hreg : fs.registed with _ | names
  · simp [hreg]
  · simp [hreg, List.mem_filter, List.elem_iff]

/-- C7 counterexample: on a manager with no records and one orphaned file,
the integrity check returns immediately — no sweep runs and the unreferenced
file survives, refuting "deletes every file not referenced by a remaining
active record". -/
theorem c7_counterexample :
    checkEmojiFileIntegrity stEmptyOrphan = stEmptyOrphan ∧
    stEmptyOrphan.fs.registed = some ["orphan.png"] ∧
    stEmptyOrphan.emoji_objects = [] := by
  refine ⟨by decide, rfl, rfl⟩

/-- C7 (amended): on a manager whose record sequence is non-empty, whose
records have pairwise distinct paths, and whose store mirrors memory, one
integrity run removes exactly the tombstoned / missing-file /
empty-description records, persists the reduced set, and after the orphan
sweep the registered directory holds only files referenced by remaining
records while every referenced file survives. -/
theorem c7_integrity_sweep (st : MState)
    (hne : st.emoji_objects ≠ [])
    (hdist : st.emoji_objects.Pairwise (fun a b => a.full_path ≠ b.full_path))
    (hsync : st.store = saveAllEmojiObjects st.emoji_objects) :
    (checkEmojiFileIntegrity st).emoji_objects =
      st.emoji_objects.filter (fun e => !removePredB st.fs e) ∧
    (checkEmojiFileIntegrity st).store =
      saveAllEmojiObjects ((checkEmojiFileIntegrity st).emoji_objects) ∧
    (∀ n ∈ (checkEmojiFileIntegrity st).fs.registed.getD [],
      joinPath EMOJI_REGISTED_DIR n ∈
        (checkEmojiFileIntegrity st).emoji_objects.map (·.full_path)) ∧
    (∀ n ∈ st.fs.registed.getD [],
      joinPath EMOJI_REGISTED_DIR n ∈
          (checkEmojiFileIntegrity st).emoji_objects.map (·.full_path) →
      n ∈ (checkEmojiFileIntegrity st).fs.registed.getD []) := by
  unfold checkEmojiFileIntegrity
  rw [if_neg hne]
  dsimp only
  obtain ⟨hk, hf⟩ := integrityScan_spec st.emoji_objects st.fs st.store hdist
  rcases hres : integrityScan st.fs st.store st.emoji_objects
    with ⟨kept, dec, fs1, store1⟩
  rw [hres] at hk hf
  dsimp only at hk hf ⊢
  have hkalive : kept.filter (fun e => !e.is_deleted) = kept := by
    apply List.filter_eq_self.mpr
    intro x hx
    rw [hk] at hx
    have hcond := List.of_mem_filter hx
    have h3 := (removePredB_false_iff st.fs x).mp (by simpa using hcond)
    simp [h3.1]
  refine ⟨hk, ?_, ?_, ?_⟩
  · by_cases hrem : kept.length ≠ st.emoji_objects.length
    · rw [if_pos hrem]
    · rw [if_neg hrem]
      rw [Decidable.not_not] at hrem
      have hall : ∀ x ∈ st.emoji_objects, (fun e => !removePredB st.fs e) x = true := by
        apply List.filter_length_eq_length.mp
        rw [← hk]
        exact hrem
      have hint : integrityScan st.fs st.store st.emoji_objects =
          (st.emoji_objects, 0, st.fs, st.store) := by
        apply integrityScan_intact
        intro x hx
        exact (removePredB_false_iff st.fs x).mp (by simpa using hall x hx)
      have hcomb := hres.symm.trans hint
      simp only [Prod.mk.injEq] at hcomb
      rw [hcomb.2.2.2, hsync, hcomb.1]
  · intro n hn
    rw [cleanUnused_registed_mem, hkalive] at hn
    exact hn.2
  · intro n hn hjoin
    rw [cleanUnused_registed_mem, hkalive]
    refine ⟨?_, hjoin⟩
    rw [hf, foldl_removePath_registed]
    refine ⟨hn, ?_⟩
    intro hmem
    unfold descRemovedPaths at hmem
    rw [List.mem_map] at hmem
    obtain ⟨r, hr, hrp⟩ := hmem
    have hrf := List.mem_filter.mp hr
    rw [List.mem_map] at hjoin
    obtain ⟨k, hkmem, hkp⟩ := hjoin
    have hkin : k ∈ st.emoji_objects := by
      rw [hk] at hkmem
      exact List.mem_of_mem_filter hkmem
    have hkcond := by
      rw [hk] at hkmem
      exact List.of_mem_filter hkmem
    have hkt := (removePredB_false_iff st.fs k).mp (by simpa using hkcond)
    have hrdesc : r.description = "" := by
      have := hrf.2
      simp only [Bool.and_eq_true, beq_iff_eq] at this
      exact this.2
    have hrneqk : r ≠ k := by
      intro hcon
      rw [hcon] at hrdesc
      exact hkt.2.2 hrdesc
    have hsymm : Symmetric (fun a b : MaiEmoji => a.full_path ≠ b.full_path) :=
      fun a b hab => hab.symm
    exact (List.Pairwise.forall hsymm hdist hrf.1 hkin hrneqk) (hrp.trans hkp.symm)

/-- C7 witness: the amended theorem applied to a manager with one intact
record, one missing-file record and one orphan file. -/
theorem c7_witness :
    (checkEmojiFileIntegrity stIntegrity).emoji_objects =
      stIntegrity.emoji_objects.filter (fun e => !removePredB stIntegrity.fs e) ∧
    (checkEmojiFileIntegrity stIntegrity).store =
      saveAllEmojiObjects ((checkEmojiFileIntegrity stIntegrity).emoji_objects) ∧
    (∀ n ∈ (checkEmojiFileIntegrity stIntegrity).fs.registed.getD [],
      joinPath EMOJI_REGISTED_DIR n ∈
        (checkEmojiFileIntegrity stIntegrity).emoji_objects.map (·.full_path)) ∧
    (∀ n ∈ stIntegrity.fs.registed.getD [],
      joinPath EMOJI_REGISTED_DIR n ∈
          (checkEmojiFileIntegrity stIntegrity).emoji_objects.map (·.full_path) →
      n ∈ (checkEmojiFileIntegrity stIntegrity).fs.registed.getD []) :=
  c7_integrity_sweep stIntegrity (by decide) (by decide) (by decide)

end AiEmoji
